import Mathlib

/-!
Verification of the dialer backend's call-turn protocol, response classifiers,
phone-number normalizer and bulk caller, as shallow Lean embeddings of the
TypeScript sources (`src/csvUploader.ts`, `src/twilioService.ts`,
`src/openaiService.ts`, and the earlier revisions kept under `src/unnamed/`).

Conventions of the embedding:
  * JavaScript strings are Lean `String`s; character-level reasoning works on
    `String.data : List Char`.  An absent (`undefined`) form field is the empty
    string, matching the only use the handlers make of it (JS falsiness).
  * `async` functions that can reject are `Except Unit _` valued; the results
    of external services (the reasoning service, the TTS/object-store call,
    the telephony placement API) are supplied by an environment record, so the
    handlers are quantified over every possible behaviour of those services.
  * JSON values parsed from the reasoning service are a `Json` inductive; a JS
    `undefined` field is `Option.none` around it.
  * TwiML documents are a small verb AST (`say`, `play`, `hangup`, `gather`);
    the provider-irrelevant fixed gather attributes (timeout, method) are not
    part of the AST, but the `action` URL is, since the retry counter rides it.
-/

namespace DialerBE

/-! ## Phone number normalizer (`standardizePhoneNumber`, src/csvUploader.ts:74-88) -/

/-- `phone.replace(/\D/g, "")`: the digit characters of the input, in order
(JS `\d` is exactly the ASCII digits `0`-`9`, as is `Char.isDigit`). -/
def digitChars (phone : String) : List Char :=
  phone.data.filter Char.isDigit

/-- `standardizePhoneNumber` from src/csvUploader.ts lines 74-88 (identical in
all revisions): strip non-digits, then prefix `+1` for a 10-digit number, `+`
for an 11-digit number starting with `1`, and `+` otherwise. -/
def standardizePhoneNumber (phone : String) : String :=
  let digits : String := ⟨digitChars phone⟩
  if digits.length == 10 then "+1" ++ digits
  else if digits.length == 11 && digits.startsWith "1" then "+" ++ digits
  else "+" ++ digits

/-- Modelled from the spec's words (§4.1 of spec.md, quoted by the claim):
"strip all non-digit characters; if exactly 10 digits remain, prefix with the
single-digit country code 1 and a leading +; if exactly 11 digits and the
leading digit is 1, prefix with +; otherwise prefix whatever digit string
remains with + without further validation".  Written independently of the
source: the digit test is the character range, the leading-digit test looks at
the head of the remaining characters. -/
def normalizeSpec (input : String) : String :=
  let remaining : List Char := input.data.filter (fun c => decide ('0' ≤ c ∧ c ≤ '9'))
  if remaining.length = 10 then "+1" ++ String.mk remaining
  else if remaining.length = 11 ∧ remaining.head? = some '1' then "+" ++ String.mk remaining
  else "+" ++ String.mk remaining

theorem isDigit_eq_range (c : Char) : c.isDigit = decide ('0' ≤ c ∧ c ≤ '9') := by
  simp [Char.isDigit, Char.le_def]

theorem digitChars_eq_range (phone : String) :
    digitChars phone = phone.data.filter (fun c => decide ('0' ≤ c ∧ c ≤ '9')) := by
  unfold digitChars
  exact List.filter_congr (fun c _ => isDigit_eq_range c)

/-- The middle branch of the normalizer returns the same string as the final
branch, so the function collapses to a two-way case split on the digit count. -/
theorem standardizePhoneNumber_eq_two_branch (phone : String) :
    standardizePhoneNumber phone =
      (if (digitChars phone).length = 10 then "+1" ++ String.mk (digitChars phone)
       else "+" ++ String.mk (digitChars phone)) := by
  unfold standardizePhoneNumber
  by_cases h : (digitChars phone).length = 10
  · simp [String.length, h]
  · simp [String.length, h]

theorem digitChars_all_digits (s : String) :
    ∀ c ∈ digitChars s, Char.isDigit c = true :=
  fun _ hc => (List.mem_filter.mp hc).2

theorem filter_digitChars (s : String) :
    (digitChars s).filter Char.isDigit = digitChars s :=
  List.filter_eq_self.mpr (digitChars_all_digits s)

/-- C7: the phone number normalizer is a pure total function on strings: it
strips every non-digit character; with exactly 10 digits left it returns `+1`
followed by them, with exactly 11 digits starting in `1` it returns `+`
followed by them, and otherwise `+` followed by whatever digits remain, with
no further validation.  Proved as an equality with `normalizeSpec`, the
function written from the spec's words. -/
theorem standardizePhoneNumber_matches_spec (phone : String) :
    standardizePhoneNumber phone = normalizeSpec phone := by
  rw [standardizePhoneNumber_eq_two_branch]
  unfold normalizeSpec
  rw [← digitChars_eq_range]
  by_cases h : (digitChars phone).length = 10
  · simp [h]
  · simp [h]

/-- C8: phone number normalization is idempotent:
`normalize (normalize x) = normalize x` for every input string. -/
theorem standardizePhoneNumber_idempotent (x : String) :
    standardizePhoneNumber (standardizePhoneNumber x) = standardizePhoneNumber x := by
  rw [standardizePhoneNumber_eq_two_branch x]
  by_cases h : (digitChars x).length = 10
  · rw [if_pos h]
    have hd : digitChars ("+1" ++ String.mk (digitChars x)) = '1' :: digitChars x := by
      unfold digitChars
      rw [String.data_append, List.filter_append]
      have h1 : ("+1" : String).data.filter Char.isDigit = ['1'] := by decide
      rw [h1]
      show ['1'] ++ (digitChars x).filter Char.isDigit = '1' :: digitChars x
      rw [filter_digitChars]
      rfl
    rw [standardizePhoneNumber_eq_two_branch, hd]
    rw [if_neg (by simp [h])]
    rfl
  · rw [if_neg h]
    have hd : digitChars ("+" ++ String.mk (digitChars x)) = digitChars x := by
      unfold digitChars
      rw [String.data_append, List.filter_append]
      have h1 : ("+" : String).data.filter Char.isDigit = [] := by decide
      rw [h1]
      show [] ++ (digitChars x).filter Char.isDigit = digitChars x
      rw [filter_digitChars]
      rfl
    rw [standardizePhoneNumber_eq_two_branch, hd, if_neg h]

/-! ## Pattern-matching classifier (`analyzeSpeechResponse`, src/unnamed/part_000 lines 48-89)

The classifier runs a handful of JavaScript regexes over the lowercased,
trimmed transcript.  Each regex is embedded as a character-list matcher with
the exact leftmost-match semantics of the JS engine; where the JS engine would
backtrack, the comment of the matcher argues why deterministic maximal munch
is equivalent for that pattern.  JS `\w` is `[A-Za-z0-9_]`, `\d` is `[0-9]`;
JS `\s` also accepts form feeds and Unicode spaces, which Lean's
`Char.isWhitespace` (space, tab, CR, LF) omits - no transcript or pattern in
the claims involves those characters. -/

/-- JS `\w`: ASCII letters, digits and underscore. -/
def isWordChar (c : Char) : Bool := c.isAlphanum || c == '_'

/-- JS `toLowerCase` (ASCII; see the section comment), defined over the
character list so that it reduces definitionally. -/
def jsLower (s : String) : String := ⟨s.data.map Char.toLower⟩

/-- Strip the literal `pat` from the front of `l`, returning the rest. -/
def dropLit : List Char → List Char → Option (List Char)
  | [], l => some l
  | _ :: _, [] => none
  | p :: ps, c :: cs => if p == c then dropLit ps cs else none

/-- Whether `pat` is a literal prefix of `l`. -/
def hasPre (pat l : List Char) : Bool := (dropLit pat l).isSome

/-- Whether `pat` occurs as a contiguous substring of `l`
(JS `String.prototype.includes`). -/
def hasSubstr (pat : List Char) : List Char → Bool
  | [] => pat.isEmpty
  | c :: rest => hasPre pat (c :: rest) || hasSubstr pat rest

/-- JS `\b` on the left of a match: the previous character (if any) is not a
word character.  (Every alternative the classifier anchors with `\b` starts
with a word character, so the exclusive-or of the two sides reduces to this.) -/
def boundaryBeforeOK : Option Char → Bool
  | none => true
  | some p => !(isWordChar p)

/-- JS `\b` on the right of a match ending in a word character: the rest of
the text is empty or starts with a non-word character. -/
def boundaryAfterOK : List Char → Bool
  | [] => true
  | c :: _ => !(isWordChar c)

/-- One attempt of `/(\d+)(?:\s*%|\s*percent(?:age)?)/` at the head of `l`:
greedy digit run, then optional whitespace, then `%` or `percent` (the
optional `age` affects neither the capture nor success).  Backtracking into
the digit run can never help: after a shorter run the next character is a
digit, which fails both alternatives, so maximal munch is exact.  Returns the
captured digit run. -/
def tryPercentAt (l : List Char) : Option (List Char) :=
  let ds := l.takeWhile Char.isDigit
  if ds.isEmpty then none
  else
    let rest := (l.dropWhile Char.isDigit).dropWhile Char.isWhitespace
    match rest with
    | '%' :: _ => some ds
    | _ => if hasPre "percent".data rest then some ds else none

/-- The capture of the first (leftmost) match of the percent regex:
`matchAll(/(\d+)(?:\s*%|\s*percent(?:age)?)/g)`, first element, group 1. -/
def firstPercent : List Char → Option (List Char)
  | [] => none
  | c :: rest =>
    match tryPercentAt (c :: rest) with
    | some ds => some ds
    | none => firstPercent rest

/-- One attempt of `/(\d+)(?:\s*dollars?\s+off)/` at the head of `l`: greedy
digit run, optional whitespace, literal `dollar`, optional `s`, at least one
whitespace, literal `off`.  The greedy choices are again exact: a shorter
digit run leaves a digit where `dollar` must start, skipping the optional `s`
leaves that `s` where whitespace must start, and a shorter whitespace run
leaves whitespace where `off` must start. -/
def tryDollarsAt (l : List Char) : Option (List Char) :=
  let ds := l.takeWhile Char.isDigit
  if ds.isEmpty then none
  else
    let r1 := (l.dropWhile Char.isDigit).dropWhile Char.isWhitespace
    match dropLit "dollar".data r1 with
    | none => none
    | some r2 =>
      let r3 := match r2 with
        | 's' :: t => t
        | _ => r2
      match r3 with
      | c :: t =>
        if c.isWhitespace && hasPre "off".data (t.dropWhile Char.isWhitespace)
        then some ds else none
      | [] => none

/-- The capture of the first match of the dollars regex. -/
def firstDollars : List Char → Option (List Char)
  | [] => none
  | c :: rest =>
    match tryDollarsAt (c :: rest) with
    | some ds => some ds
    | none => firstDollars rest

/-- One alternative `w` of `/\b(ten|fifteen|twenty)\s*(?:percent|%)/` at the
head of `l` (the caller checks the word boundary): the word, optional
whitespace, then `percent` or `%`.  Returns the full matched text, which is
what the spread of a non-global `match` result puts into the array. -/
def tryWrittenWord (w : List Char) (l : List Char) : Option (List Char) :=
  match dropLit w l with
  | none => none
  | some r =>
    let ws := r.takeWhile Char.isWhitespace
    let r2 := r.dropWhile Char.isWhitespace
    if hasPre "percent".data r2 then some (w ++ ws ++ "percent".data)
    else
      match r2 with
      | '%' :: _ => some (w ++ ws ++ ['%'])
      | _ => none

/-- The alternatives of the written-number group, tried in the regex's order. -/
def tryWrittenAt (l : List Char) : Option (List Char) :=
  match tryWrittenWord "ten".data l with
  | some m => some m
  | none =>
    match tryWrittenWord "fifteen".data l with
    | some m => some m
    | none => tryWrittenWord "twenty".data l

/-- The full text of the first match of the written-number regex, scanning
left to right with the word boundary before the match. -/
def firstWritten : Option Char → List Char → Option (List Char)
  | _, [] => none
  | prev, c :: rest =>
    match (if boundaryBeforeOK prev then tryWrittenAt (c :: rest) else none) with
    | some m => some m
    | none => firstWritten (some c) rest

/-- The whole-word alternatives of
`/\b(yes|yeah|yep|correct|we do|offer|have|gives?|provides?)\b/i`: the
optional-`s` forms expand to both words (`gives?` then `\b` matches exactly
the whole words `give` and `gives`). -/
def affTokens : List (List Char) :=
  ["yes".data, "yeah".data, "yep".data, "correct".data, "we do".data,
   "offer".data, "have".data, "give".data, "gives".data,
   "provide".data, "provides".data]

/-- Whether one of `toks` matches at the head of `l` with a word boundary
after it (the JS alternation tries every alternative at each position). -/
def tokenAt (toks : List (List Char)) (l : List Char) : Bool :=
  toks.any fun tok =>
    match dropLit tok l with
    | some r => boundaryAfterOK r
    | none => false

/-- `regex.test`: scan every position for a token with word boundaries on both
sides, threading the previous character for the left boundary. -/
def scanTokens (toks : List (List Char)) : Option Char → List Char → Bool
  | _, [] => false
  | prev, c :: rest =>
    (boundaryBeforeOK prev && tokenAt toks (c :: rest)) || scanTokens toks (some c) rest

/-- The negation words of `/\b(no|don't|not|doesn't)\s+(?:offer|have|give|provide)\b/i`. -/
def negTokens : List (List Char) :=
  ["no".data, "don't".data, "not".data, "doesn't".data]

/-- The verbs the negation regex requires after the negation word. -/
def negVerbs : List (List Char) :=
  ["offer".data, "have".data, "give".data, "provide".data]

/-- One attempt of the negation regex at the head of `l`: a negation word,
at least one whitespace (greedy munch is exact: the verbs start with
letters), then a verb with a word boundary after it. -/
def negAt (l : List Char) : Bool :=
  negTokens.any fun tok =>
    match dropLit tok l with
    | some (c :: t) =>
      c.isWhitespace &&
        (let r2 := t.dropWhile Char.isWhitespace
         negVerbs.any fun v =>
           match dropLit v r2 with
           | some r3 => boundaryAfterOK r3
           | none => false)
    | _ => false

/-- `test` of the negation regex: scan every position, word boundary before. -/
def scanNeg : Option Char → List Char → Bool
  | _, [] => false
  | prev, c :: rest =>
    (boundaryBeforeOK prev && negAt (c :: rest)) || scanNeg (some c) rest

/-- The written-number lookup object `{ten: "10", fifteen: "15", twenty: "20"}`. -/
def numberMap (m : String) : Option String :=
  if m == "ten" then some "10"
  else if m == "fifteen" then some "15"
  else if m == "twenty" then some "20"
  else none

/-- `full[1]` on a JS string: its second character as a one-character string.
(A written-number full match has at least four characters, so the empty
fallback is unreachable.) -/
def secondCharStr (full : List Char) : String :=
  match full with
  | _ :: c :: _ => String.mk [c]
  | _ => ""

structure PatternAnalysis where
  hasDiscount : Bool
  discountAmount : Option String
  discountDetails : String
deriving Repr, DecidableEq

/-- `percentageMatches[0][1]`: `percentageMatches` concatenates the match
objects of the two digit regexes with the spread *strings* of the non-global
written-number `match` result, and `[1]` is the capture group when the first
element is a match object but the second character of the full-match string
when it came from the spread. -/
def classifierFirstElem (t : List Char) : Option String :=
  match firstPercent t with
  | some ds => some (String.mk ds)
  | none =>
    match firstDollars t with
    | some ds => some (String.mk ds)
    | none => (firstWritten none t).map secondCharStr

/-- The `discountAmount` computation of `analyzeSpeechResponse`: written-number
lookup (`numberMap[match.toLowerCase()] || match`), then the suffix chosen by
`match.includes("dollar")`. -/
def classifierAmount (t : List Char) : Option String :=
  (classifierFirstElem t).map fun m =>
    let base := (numberMap (jsLower m)).getD m
    base ++ (if hasSubstr "dollar".data m.data then " dollars off" else "%")

/-- The `hasDiscount` computation of `analyzeSpeechResponse`: the affirmative
regex tests true and the negation regex does not. -/
def classifierHasDiscount (t : List Char) : Bool :=
  scanTokens affTokens none t && !(scanNeg none t)

/-- `transcript.toLowerCase().trim()` as a character list: ASCII lowering and
whitespace stripped from both ends (JS lowers and trims some further Unicode
characters; no pattern or transcript here contains them).  Defined over the
character list so that concrete transcripts evaluate definitionally. -/
def normalizeTranscript (transcript : String) : List Char :=
  ((((transcript.data.map Char.toLower).dropWhile Char.isWhitespace).reverse.dropWhile
      Char.isWhitespace).reverse)

/-- `analyzeSpeechResponse` from src/unnamed/part_000 lines 48-89, over the
lowercased and trimmed transcript; `discountDetails` stores the entire
original transcript. -/
def analyzeSpeechResponse (transcript : String) : PatternAnalysis :=
  { hasDiscount := classifierHasDiscount (normalizeTranscript transcript)
    discountAmount := classifierAmount (normalizeTranscript transcript)
    discountDetails := transcript }

/-! ### What the amount extraction can produce -/

theorem tryPercentAt_digits {l ds : List Char} (h : tryPercentAt l = some ds) :
    ∀ c ∈ ds, Char.isDigit c = true := by
  unfold tryPercentAt at h
  dsimp only at h
  split at h
  · exact absurd h (by simp)
  · split at h
    · injection h with h'
      subst h'
      exact fun c hc => List.mem_takeWhile_imp hc
    · split at h
      · injection h with h'
        subst h'
        exact fun c hc => List.mem_takeWhile_imp hc
      · exact absurd h (by simp)

theorem firstPercent_digits : ∀ {l ds : List Char}, firstPercent l = some ds →
    ∀ c ∈ ds, Char.isDigit c = true := by
  intro l
  induction l with
  | nil => intro ds h; exact absurd h (by simp [firstPercent])
  | cons c rest ih =>
    intro ds h
    rw [firstPercent] at h
    cases htry : tryPercentAt (c :: rest) with
    | some ds0 =>
      rw [htry] at h
      injection h with h'
      subst h'
      exact tryPercentAt_digits htry
    | none =>
      rw [htry] at h
      exact ih h

theorem tryDollarsAt_digits {l ds : List Char} (h : tryDollarsAt l = some ds) :
    ∀ c ∈ ds, Char.isDigit c = true := by
  unfold tryDollarsAt at h
  dsimp only at h
  split at h
  · exact absurd h (by simp)
  · split at h
    · exact absurd h (by simp)
    · split at h
      · split at h
        · injection h with h'
          subst h'
          exact fun c hc => List.mem_takeWhile_imp hc
        · exact absurd h (by simp)
      · exact absurd h (by simp)

theorem firstDollars_digits : ∀ {l ds : List Char}, firstDollars l = some ds →
    ∀ c ∈ ds, Char.isDigit c = true := by
  intro l
  induction l with
  | nil => intro ds h; exact absurd h (by simp [firstDollars])
  | cons c rest ih =>
    intro ds h
    rw [firstDollars] at h
    cases htry : tryDollarsAt (c :: rest) with
    | some ds0 =>
      rw [htry] at h
      injection h with h'
      subst h'
      exact tryDollarsAt_digits htry
    | none =>
      rw [htry] at h
      exact ih h

/-- `"dollar"` never occurs inside a run of digit characters. -/
theorem hasSubstr_dollar_digits : ∀ {l : List Char}, (∀ c ∈ l, Char.isDigit c = true) →
    hasSubstr "dollar".data l = false := by
  intro l
  induction l with
  | nil => intro _; rfl
  | cons c rest ih =>
    intro hl
    have hc : Char.isDigit c = true := hl c (List.mem_cons_self c rest)
    have hne : ('d' == c) = false := by
      apply beq_eq_false_iff_ne.mpr
      intro hdc
      rw [← hdc] at hc
      exact absurd hc (by decide)
    show (hasPre "dollar".data (c :: rest) || hasSubstr "dollar".data rest) = false
    rw [ih (fun x hx => hl x (List.mem_cons_of_mem c hx))]
    have hpre : dropLit "dollar".data (c :: rest) = none := by
      show (if ('d' == c) then dropLit "ollar".data rest else none) = none
      rw [hne]
      rfl
    simp [hasPre, hpre]

/-- `"dollar"` never occurs inside a one-character string. -/
theorem hasSubstr_dollar_single (c : Char) : hasSubstr "dollar".data [c] = false := by
  have hpre : dropLit "dollar".data [c] = none := by
    show (if ('d' == c) then dropLit "ollar".data [] else none) = none
    cases h : ('d' == c) <;> simp [h, dropLit]
  show (hasPre "dollar".data [c] || hasSubstr "dollar".data []) = false
  simp [hasPre, hpre, hasSubstr]

theorem secondCharStr_short (full : List Char) :
    (secondCharStr full).data = [] ∨ ∃ c, (secondCharStr full).data = [c] := by
  match full with
  | [] => exact Or.inl rfl
  | [_] => exact Or.inl rfl
  | _ :: c :: _ => exact Or.inr ⟨c, rfl⟩

/-- Every amount the classifier extracts ends in `"%"`: the element the code
tags is either a digit run or a single character, and the `includes("dollar")`
test can never hold of those. -/
theorem classifierAmount_pct {t : List Char} {a : String}
    (h : classifierAmount t = some a) : ∃ b, a = b ++ "%" := by
  unfold classifierAmount at h
  rw [Option.map_eq_some'] at h
  obtain ⟨m, hm, hfa⟩ := h
  have hnd : hasSubstr "dollar".data m.data = false := by
    unfold classifierFirstElem at hm
    cases h1 : firstPercent t with
    | some ds =>
      rw [h1] at hm
      injection hm with hm
      subst hm
      exact hasSubstr_dollar_digits (firstPercent_digits h1)
    | none =>
      rw [h1] at hm
      cases h2 : firstDollars t with
      | some ds =>
        rw [h2] at hm
        injection hm with hm
        subst hm
        exact hasSubstr_dollar_digits (firstDollars_digits h2)
      | none =>
        rw [h2] at hm
        rw [Option.map_eq_some'] at hm
        obtain ⟨full, _, hfull⟩ := hm
        subst hfull
        rcases secondCharStr_short full with hnil | ⟨c, hc⟩
        · rw [hnil]; rfl
        · rw [hc]; exact hasSubstr_dollar_single c
  rw [hnd] at hfa
  simp only [Bool.false_eq_true, if_false] at hfa
  exact ⟨_, hfa.symm⟩

/-- C4, counterexample: the claim's two predictions both fail.  On
`"ten percent for veterans"` the classifier does not return `"10%"` (the
written-number match is spread into the array as plain strings, so the code
indexes a character of the matched text), and on `"10 dollars off"` it does
not return `"10 dollars off"` (the `includes("dollar")` tag test inspects the
captured digits, never the matched text). -/
theorem analyzeSpeechResponse_c4_counterexample :
    (analyzeSpeechResponse "ten percent for veterans").discountAmount ≠ some "10%" ∧
    (analyzeSpeechResponse "10 dollars off").discountAmount ≠ some "10 dollars off" := by
  decide

/-- C4, amended: the classifier extracts the first numeric match of the digit
patterns and tags it `"%"` whichever pattern matched (`" dollars off"` is
never produced, because the tag test looks for `"dollar"` inside the captured
number); when only a written-number pattern matches, the written-number map is
not applied: the code reads the second character of the matched text, so
`"ten percent for veterans"` yields `"e%"` and `"10 dollars off"` yields
`"10%"`. -/
theorem analyzeSpeechResponse_amount_amended :
    (analyzeSpeechResponse "ten percent for veterans").discountAmount = some "e%" ∧
    (analyzeSpeechResponse "10 dollars off").discountAmount = some "10%" ∧
    ∀ (t a : String), (analyzeSpeechResponse t).discountAmount = some a →
      ∃ b, a = b ++ "%" := by
  refine ⟨by decide, by decide, ?_⟩
  intro t a h
  exact classifierAmount_pct h

/-! ### Declarative containment predicates and the scanner equivalence

The `hasDiscount` tests of the classifier are scanning matchers; the claim
speaks of the transcript *containing* tokens as whole words.  The predicates
below state containment declaratively, as a decomposition of the character
list, and the lemmas prove the scanners equivalent to them. -/

/-- The affirmative token list exactly as the claim enumerates it: yes, yeah,
yep, correct, we do, offer, have, gives, provides - no bare `give`/`provide`. -/
def claimAffTokens : List (List Char) :=
  ["yes".data, "yeah".data, "yep".data, "correct".data, "we do".data,
   "offer".data, "have".data, "gives".data, "provides".data]

/-- `l` contains one of `toks` as a whole word: an occurrence whose
neighbouring characters, when they exist, are not word characters. -/
def ContainsWord (toks : List (List Char)) (l : List Char) : Prop :=
  ∃ pre tok post, tok ∈ toks ∧ l = pre ++ tok ++ post ∧
    (∀ p, pre.getLast? = some p → isWordChar p = false) ∧
    (∀ c, post.head? = some c → isWordChar c = false)

/-- `l` contains a negation word followed, across at least one whitespace
character, by one of the verbs, with word boundaries at both ends. -/
def ContainsNegation (l : List Char) : Prop :=
  ∃ pre tok ws verb post, tok ∈ negTokens ∧ verb ∈ negVerbs ∧
    l = pre ++ tok ++ ws ++ verb ++ post ∧ ws ≠ [] ∧
    (∀ c ∈ ws, c.isWhitespace = true) ∧
    (∀ p, pre.getLast? = some p → isWordChar p = false) ∧
    (∀ c, post.head? = some c → isWordChar c = false)

theorem dropLit_eq_some : ∀ {pat l r : List Char}, dropLit pat l = some r ↔ l = pat ++ r := by
  intro pat
  induction pat with
  | nil =>
    intro l r
    simp [dropLit]
  | cons p ps ih =>
    intro l r
    cases l with
    | nil =>
      constructor
      · intro h; exact absurd h (by simp [dropLit])
      · intro h; exact absurd h (by simp)
    | cons c cs =>
      show (if p == c then dropLit ps cs else none) = some r ↔ c :: cs = p :: (ps ++ r)
      by_cases hpc : p = c
      · subst hpc
        rw [if_pos (by simp)]
        constructor
        · intro h; rw [ih.mp h]
        · intro h; injection h with _ h2; exact ih.mpr h2
      · rw [if_neg (by simpa using hpc)]
        constructor
        · intro h; exact absurd h (by simp)
        · intro h
          injection h with h1 _
          exact absurd h1.symm hpc

theorem boundaryBeforeOK_iff (o : Option Char) :
    boundaryBeforeOK o = true ↔ ∀ p, o = some p → isWordChar p = false := by
  cases o <;> simp [boundaryBeforeOK]

theorem boundaryAfterOK_iff (post : List Char) :
    boundaryAfterOK post = true ↔ ∀ c, post.head? = some c → isWordChar c = false := by
  cases post <;> simp [boundaryAfterOK]

theorem tokenAt_iff (toks : List (List Char)) (l : List Char) :
    tokenAt toks l = true ↔
      ∃ tok post, tok ∈ toks ∧ l = tok ++ post ∧ boundaryAfterOK post = true := by
  unfold tokenAt
  rw [List.any_eq_true]
  constructor
  · rintro ⟨tok, htok, hmatch⟩
    cases hd : dropLit tok l with
    | some r =>
      rw [hd] at hmatch
      exact ⟨tok, r, htok, dropLit_eq_some.mp hd, hmatch⟩
    | none => rw [hd] at hmatch; exact absurd hmatch (by simp)
  · rintro ⟨tok, post, htok, hl, hb⟩
    refine ⟨tok, htok, ?_⟩
    rw [dropLit_eq_some.mpr hl]
    exact hb

/-- The shared scanning shell of the two `test` implementations: try the
per-position check at every suffix, with the word boundary before it. -/
def scanFrom (check : List Char → Bool) : Option Char → List Char → Bool
  | _, [] => false
  | prev, c :: rest =>
    (boundaryBeforeOK prev && check (c :: rest)) || scanFrom check (some c) rest

theorem scanTokens_eq_scanFrom (toks : List (List Char)) :
    ∀ (prev : Option Char) (l : List Char),
      scanTokens toks prev l = scanFrom (tokenAt toks) prev l := by
  intro prev l
  induction l generalizing prev with
  | nil => rfl
  | cons c rest ih => rw [scanTokens, scanFrom, ih]

theorem scanNeg_eq_scanFrom :
    ∀ (prev : Option Char) (l : List Char), scanNeg prev l = scanFrom negAt prev l := by
  intro prev l
  induction l generalizing prev with
  | nil => rfl
  | cons c rest ih => rw [scanNeg, scanFrom, ih]

theorem getLast?_cons_or (c : Char) (pre : List Char) (prev : Option Char) :
    ((c :: pre).getLast?).or prev = (pre.getLast?).or (some c) := by
  induction pre generalizing c prev with
  | nil => rfl
  | cons d rest ih =>
    rw [List.getLast?_cons_cons]
    rw [ih d prev, ih d (some c)]

theorem scanFrom_iff (check : List Char → Bool) :
    ∀ (prev : Option Char) (l : List Char),
      scanFrom check prev l = true ↔
        ∃ pre suf, l = pre ++ suf ∧ suf ≠ [] ∧
          boundaryBeforeOK (pre.getLast?.or prev) = true ∧ check suf = true := by
  intro prev l
  induction l generalizing prev with
  | nil =>
    constructor
    · intro h; exact absurd h (by simp [scanFrom])
    · rintro ⟨pre, suf, heq, hsuf, -, -⟩
      exact absurd (List.append_eq_nil.mp heq.symm).2 hsuf
  | cons c rest ih =>
    rw [scanFrom, Bool.or_eq_true, Bool.and_eq_true]
    constructor
    · rintro (⟨hb, hc⟩ | hrec)
      · exact ⟨[], c :: rest, rfl, by simp, hb, hc⟩
      · obtain ⟨pre, suf, heq, hsuf, hb, hchk⟩ := (ih (some c)).mp hrec
        refine ⟨c :: pre, suf, by rw [heq]; rfl, hsuf, ?_, hchk⟩
        rw [getLast?_cons_or]
        exact hb
    · rintro ⟨pre, suf, heq, hsuf, hb, hchk⟩
      cases pre with
      | nil =>
        left
        rw [List.nil_append] at heq
        subst heq
        exact ⟨hb, hchk⟩
      | cons c' pre' =>
        right
        injection heq with h1 h2
        apply (ih (some c)).mpr
        refine ⟨pre', suf, h2, hsuf, ?_, hchk⟩
        rw [getLast?_cons_or] at hb
        rw [h1]
        exact hb

theorem or_none_eq (o : Option Char) : o.or none = o := by cases o <;> rfl

theorem dropWhile_append_of {p : Char → Bool} :
    ∀ (ws l : List Char), (∀ c ∈ ws, p c = true) →
      (∀ h, l.head? = some h → p h = false) → (ws ++ l).dropWhile p = l := by
  intro ws
  induction ws with
  | nil =>
    intro l _ hl
    cases l with
    | nil => rfl
    | cons h t =>
      rw [List.nil_append, List.dropWhile_cons, hl h rfl]
      simp
  | cons w ws' ih =>
    intro l hws hl
    rw [List.cons_append, List.dropWhile_cons, hws w (by simp)]
    simp only [if_true]
    exact ih l (fun x hx => hws x (by simp [hx])) hl

theorem negVerbs_head_not_ws :
    ∀ v ∈ negVerbs, ∀ h, v.head? = some h → Char.isWhitespace h = false := by
  intro v hv
  fin_cases hv <;> (intro h hh; injection hh with hh; subst hh; decide)

theorem negTokens_ne_nil : ∀ tok ∈ negTokens, tok ≠ [] := by decide

theorem negVerbs_ne_nil : ∀ v ∈ negVerbs, v ≠ [] := by decide

theorem scanTokens_iff_containsWord (toks : List (List Char))
    (htoks : ∀ tok ∈ toks, tok ≠ []) (l : List Char) :
    scanTokens toks none l = true ↔ ContainsWord toks l := by
  rw [scanTokens_eq_scanFrom, scanFrom_iff]
  constructor
  · rintro ⟨pre, suf, heq, hsuf, hbefore, hcheck⟩
    obtain ⟨tok, post, htok, hsufeq, hafter⟩ := (tokenAt_iff toks suf).mp hcheck
    refine ⟨pre, tok, post, htok, ?_, ?_, ?_⟩
    · rw [heq, hsufeq, List.append_assoc]
    · rw [or_none_eq] at hbefore
      exact (boundaryBeforeOK_iff _).mp hbefore
    · exact (boundaryAfterOK_iff _).mp hafter
  · rintro ⟨pre, tok, post, htok, heq, hbefore, hafter⟩
    refine ⟨pre, tok ++ post, by rw [heq, List.append_assoc], ?_, ?_, ?_⟩
    · intro hnil
      exact htoks tok htok (List.append_eq_nil.mp hnil).1
    · rw [or_none_eq]
      exact (boundaryBeforeOK_iff _).mpr hbefore
    · exact (tokenAt_iff toks _).mpr ⟨tok, post, htok, rfl, (boundaryAfterOK_iff _).mpr hafter⟩

theorem negAt_iff (l : List Char) :
    negAt l = true ↔ ∃ tok ws verb post, tok ∈ negTokens ∧ verb ∈ negVerbs ∧
      l = tok ++ ws ++ verb ++ post ∧ ws ≠ [] ∧ (∀ c ∈ ws, c.isWhitespace = true) ∧
      boundaryAfterOK post = true := by
  unfold negAt
  rw [List.any_eq_true]
  constructor
  · rintro ⟨tok, htok, hmatch⟩
    cases hd : dropLit tok l with
    | none => rw [hd] at hmatch; exact absurd hmatch (by simp)
    | some r =>
      cases r with
      | nil => rw [hd] at hmatch; exact absurd hmatch (by simp)
      | cons c t =>
        rw [hd] at hmatch
        rw [Bool.and_eq_true] at hmatch
        obtain ⟨hcws, hany⟩ := hmatch
        rw [List.any_eq_true] at hany
        obtain ⟨verb, hverb, hvm⟩ := hany
        cases hdv : dropLit verb (t.dropWhile Char.isWhitespace) with
        | none => rw [hdv] at hvm; exact absurd hvm (by simp)
        | some r3 =>
          rw [hdv] at hvm
          refine ⟨tok, c :: t.takeWhile Char.isWhitespace, verb, r3, htok, hverb, ?_,
            by simp, ?_, hvm⟩
          · have hl : l = tok ++ (c :: t) := dropLit_eq_some.mp hd
            have ht : t.takeWhile Char.isWhitespace ++ t.dropWhile Char.isWhitespace = t :=
              List.takeWhile_append_dropWhile _ _
            have hv : t.dropWhile Char.isWhitespace = verb ++ r3 := dropLit_eq_some.mp hdv
            rw [hl]
            conv_lhs => rw [← ht, hv]
            simp
          · intro x hx
            rcases List.mem_cons.mp hx with rfl | hx'
            · exact hcws
            · exact List.mem_takeWhile_imp hx'
  · rintro ⟨tok, ws, verb, post, htok, hverb, heq, hws, hwsall, hb⟩
    refine ⟨tok, htok, ?_⟩
    cases ws with
    | nil => exact absurd rfl hws
    | cons w ws' =>
      have hd : dropLit tok l = some (w :: (ws' ++ (verb ++ post))) := by
        apply dropLit_eq_some.mpr
        rw [heq]
        simp
      rw [hd]
      dsimp only
      rw [Bool.and_eq_true]
      refine ⟨hwsall w (by simp), ?_⟩
      have hdrop : ((ws' ++ (verb ++ post)).dropWhile Char.isWhitespace) = verb ++ post := by
        apply dropWhile_append_of
        · exact fun x hx => hwsall x (by simp [hx])
        · intro h hh
          have hne : verb ≠ [] := negVerbs_ne_nil verb hverb
          cases hvp : verb with
          | nil => exact absurd hvp hne
          | cons vc vt =>
            rw [hvp, List.cons_append, List.head?_cons] at hh
            injection hh with hh
            subst hh
            exact negVerbs_head_not_ws verb hverb vc (by rw [hvp]; rfl)
      rw [hdrop]
      rw [List.any_eq_true]
      refine ⟨verb, hverb, ?_⟩
      rw [dropLit_eq_some.mpr rfl]
      exact hb

theorem scanNeg_iff (l : List Char) : scanNeg none l = true ↔ ContainsNegation l := by
  rw [scanNeg_eq_scanFrom, scanFrom_iff]
  constructor
  · rintro ⟨pre, suf, heq, hsuf, hbefore, hcheck⟩
    obtain ⟨tok, ws, verb, post, htok, hverb, hsufeq, hws, hwsall, hafter⟩ :=
      (negAt_iff suf).mp hcheck
    refine ⟨pre, tok, ws, verb, post, htok, hverb, ?_, hws, hwsall, ?_, ?_⟩
    · rw [heq, hsufeq]
      simp [List.append_assoc]
    · rw [or_none_eq] at hbefore
      exact (boundaryBeforeOK_iff _).mp hbefore
    · exact (boundaryAfterOK_iff _).mp hafter
  · rintro ⟨pre, tok, ws, verb, post, htok, hverb, heq, hws, hwsall, hbefore, hafter⟩
    refine ⟨pre, tok ++ ws ++ verb ++ post, by rw [heq]; simp [List.append_assoc], ?_, ?_, ?_⟩
    · intro hnil
      exact negTokens_ne_nil tok htok
        (List.append_eq_nil.mp (List.append_eq_nil.mp (List.append_eq_nil.mp hnil).1).1).1
    · rw [or_none_eq]
      exact (boundaryBeforeOK_iff _).mpr hbefore
    · exact (negAt_iff _).mpr
        ⟨tok, ws, verb, post, htok, hverb, rfl, hws, hwsall, (boundaryAfterOK_iff _).mpr hafter⟩

/-- The classifier's `hasDiscount` is exactly: the normalized transcript
contains one of the code's affirmative whole words and no negated verb. -/
theorem classifierHasDiscount_iff (t : List Char) :
    classifierHasDiscount t = true ↔
      (ContainsWord affTokens t ∧ ¬ ContainsNegation t) := by
  unfold classifierHasDiscount
  rw [Bool.and_eq_true]
  rw [scanTokens_iff_containsWord affTokens (by decide) t]
  constructor
  · rintro ⟨h1, h2⟩
    refine ⟨h1, fun hneg => ?_⟩
    rw [(scanNeg_iff t).mpr hneg] at h2
    exact absurd h2 (by decide)
  · rintro ⟨h1, h2⟩
    refine ⟨h1, ?_⟩
    cases hs : scanNeg none t with
    | true => exact absurd ((scanNeg_iff t).mp hs) h2
    | false => rfl

/-- C5, counterexample: on `"they give military discounts"` the classifier
returns `hasDiscount = true` (the regex `gives?` matches the bare word
`give`), but the transcript contains none of the claim's affirmative tokens
(yes, yeah, yep, correct, we do, offer, have, gives, provides) as a whole
word, so the claim's "exactly when" biconditional fails at this input. -/
theorem analyzeSpeechResponse_c5_counterexample :
    (analyzeSpeechResponse "they give military discounts").hasDiscount = true ∧
    ¬ (ContainsWord claimAffTokens (normalizeTranscript "they give military discounts") ∧
       ¬ ContainsNegation (normalizeTranscript "they give military discounts")) := by
  refine ⟨by decide, fun h => ?_⟩
  have hscan := (scanTokens_iff_containsWord claimAffTokens (by decide) _).mpr h.1
  rw [show scanTokens claimAffTokens none
        (normalizeTranscript "they give military discounts") = false from by decide] at hscan
  exact absurd hscan (by decide)

/-- C5, amended: `hasDiscount` is true exactly when the lowercased (and
trimmed) transcript contains one of the affirmative tokens yes, yeah, yep,
correct, we do, offer, have, give, gives, provide, provides as a whole word
(the code's `gives?`/`provides?` also match the bare forms) and does not
contain a negation word (no, don't, not, doesn't) followed by whitespace and
offer/have/give/provide as whole words; in particular `"Yes we offer 15% off"`
yields true and `"No we don't offer that"` yields false. -/
theorem analyzeSpeechResponse_hasDiscount_amended :
    (analyzeSpeechResponse "Yes we offer 15% off").hasDiscount = true ∧
    (analyzeSpeechResponse "No we don't offer that").hasDiscount = false ∧
    ∀ t : String, (analyzeSpeechResponse t).hasDiscount = true ↔
      (ContainsWord affTokens (normalizeTranscript t) ∧
       ¬ ContainsNegation (normalizeTranscript t)) := by
  refine ⟨by decide, by decide, ?_⟩
  intro t
  exact classifierHasDiscount_iff (normalizeTranscript t)

/-! ## JSON values and `JSON.parse`

The reasoning-service classifier parses the model's function-call arguments
with `JSON.parse` and reads fields off the result without validation.  `Json`
is the value universe; a JS `undefined` (absent field) is `Option.none` around
it.  `jsonParse` is a fuelled recursive-descent parser for JSON with integer
numbers (fractional and exponent forms, and `\u` string escapes, are not
modelled - no value in this development needs them; on such input the model
errs on the side of a parse failure). -/

inductive Json where
  | null : Json
  | bool : Bool → Json
  | num : Int → Json
  | str : String → Json
  | arr : List Json → Json
  | obj : List (String × Json) → Json
deriving Repr

/-- JSON whitespace. -/
def jsonWs (c : Char) : Bool := c == ' ' || c == '\t' || c == '\n' || c == '\r'

/-- A JSON string escape character (`\u` is not modelled). -/
def escChar (c : Char) : Option Char :=
  if c == 'n' then some '\n'
  else if c == 't' then some '\t'
  else if c == 'r' then some '\r'
  else if c == '"' || c == '\\' || c == '/' then some c
  else if c == 'b' then some (Char.ofNat 8)
  else if c == 'f' then some (Char.ofNat 12)
  else none

/-- The body of a JSON string after its opening quote: the characters up to
the closing quote, and the rest of the input. -/
def parseStrRest : List Char → Option (List Char × List Char)
  | [] => none
  | '"' :: r => some ([], r)
  | '\\' :: c :: rest =>
    match escChar c with
    | some e => (parseStrRest rest).map (fun p => (e :: p.1, p.2))
    | none => none
  | '\\' :: [] => none
  | c :: rest => (parseStrRest rest).map (fun p => (c :: p.1, p.2))

def digitsToNat (ds : List Char) : Nat :=
  ds.foldl (fun n c => n * 10 + (c.toNat - 48)) 0

/-- The parser's mode: a value, the members of an object (after `{`), or the
elements of an array (after `[`), with the members or elements read so far. -/
inductive PMode where
  | val : PMode
  | members : List (String × Json) → PMode
  | elems : List Json → PMode

/-- One fuelled step of the recursive-descent JSON parser.  The fuel bounds
the nesting depth of the recursion; every two nested calls consume at least
one input character, so `2 * length + 2` fuel always suffices. -/
def pj : Nat → PMode → List Char → Option (Json × List Char)
  | 0, _, _ => none
  | Nat.succ fuel, PMode.val, l =>
    match dropLit "null".data (l.dropWhile jsonWs) with
    | some r => some (.null, r)
    | none =>
    match dropLit "true".data (l.dropWhile jsonWs) with
    | some r => some (.bool true, r)
    | none =>
    match dropLit "false".data (l.dropWhile jsonWs) with
    | some r => some (.bool false, r)
    | none =>
    match l.dropWhile jsonWs with
    | '"' :: r => (parseStrRest r).map (fun p => (.str (String.mk p.1), p.2))
    | '{' :: r =>
      (match r.dropWhile jsonWs with
       | '}' :: r2 => some (.obj [], r2)
       | _ => pj fuel (.members []) r)
    | '[' :: r =>
      (match r.dropWhile jsonWs with
       | ']' :: r2 => some (.arr [], r2)
       | _ => pj fuel (.elems []) r)
    | '-' :: r =>
      (match r.takeWhile Char.isDigit with
       | [] => none
       | ds =>
         match r.dropWhile Char.isDigit with
         | '.' :: _ => none
         | 'e' :: _ => none
         | 'E' :: _ => none
         | r2 => some (.num (-(digitsToNat ds : Int)), r2))
    | c :: r =>
      if c.isDigit then
        match (c :: r).dropWhile Char.isDigit with
        | '.' :: _ => none
        | 'e' :: _ => none
        | 'E' :: _ => none
        | r2 => some (.num (digitsToNat ((c :: r).takeWhile Char.isDigit) : Int), r2)
      else none
    | [] => none
  | Nat.succ fuel, PMode.members acc, l =>
    match l.dropWhile jsonWs with
    | '"' :: r =>
      (match parseStrRest r with
       | none => none
       | some (k, r2) =>
         match r2.dropWhile jsonWs with
         | ':' :: r3 =>
           (match pj fuel .val r3 with
            | none => none
            | some (v, r4) =>
              match r4.dropWhile jsonWs with
              | ',' :: r5 => pj fuel (.members (acc ++ [(String.mk k, v)])) r5
              | '}' :: r5 => some (.obj (acc ++ [(String.mk k, v)]), r5)
              | _ => none)
         | _ => none)
    | _ => none
  | Nat.succ fuel, PMode.elems acc, l =>
    match pj fuel .val l with
    | none => none
    | some (v, r) =>
      match r.dropWhile jsonWs with
      | ',' :: r2 => pj fuel (.elems (acc ++ [v])) r2
      | ']' :: r2 => some (.arr (acc ++ [v]), r2)
      | _ => none

/-- `JSON.parse`: parse one value and require only whitespace after it. -/
def jsonParse (s : String) : Option Json :=
  match pj (2 * s.length + 2) .val s.data with
  | some (v, r) => if r.dropWhile jsonWs = [] then some v else none
  | none => none

/-- JS property access `o.k` on a parsed JSON value: the last binding of `k`
when `o` is an object (later duplicate keys overwrite earlier ones in
`JSON.parse`), `undefined` (`none`) otherwise. -/
def Json.getField : Json → String → Option Json
  | .obj fields, k => (fields.reverse.find? (fun kv => kv.1 == k)).map (fun kv => kv.2)
  | _, _ => none

/-- JS truthiness of a JSON value. -/
def Json.truthy : Json → Bool
  | .null => false
  | .bool b => b
  | .num n => !(n == 0)
  | .str s => !s.isEmpty
  | .arr _ => true
  | .obj _ => true

/-- JS truthiness of a possibly-`undefined` value. -/
def truthyOpt : Option Json → Bool
  | none => false
  | some j => j.truthy

/-! ## Reasoning-service classifier (`handleConversation`, src/openaiService.ts lines 29-143)

The external chat-completion call is an environment function from the message
list to either a rejection or the first choice's message; the code then reads
`function_call!.arguments` (a runtime `TypeError`, hence an exception, when
`function_call` is absent), `JSON.parse`s it (an exception on invalid JSON)
and passes the parsed fields through *without any validation*: a field the
schema marks required but the parsed object lacks is simply `undefined`. -/

structure ChatMessage where
  role : String
  content : String

structure FuncCall where
  arguments : String

/-- `completion.choices[0].message`: the function-call part, when present. -/
structure CompletionMsg where
  functionCall : Option FuncCall

structure ConvEnv where
  complete : List ChatMessage → Except Unit CompletionMsg

/-- `SYSTEM_PROMPT` of src/openaiService.ts lines 8-27. -/
def SYSTEM_PROMPT : String :=
  "You are a professional representative from Valor, a military discount directory.\nFollow this exact conversation flow:\n\n1. First Interaction Only:\n- Use this exact greeting: \"Hi, I'm calling on behalf of Valor, a military discount directory. We're creating a list to help service members and their families find military discounts. Could I confirm some quick details about any discount your business might offer?\"\n\n2. All Other Interactions:\n- Ask only: \"Do you offer a military discount, and if so, what is the percentage?\"\n- If they provide a discount, respond: \"To confirm, you mentioned a [percentage] discount. We'll ensure it's accurately listed in our directory.\"\n- End with: \"Thank you for your time. Have a great day.\"\n\n3. Call Control Rules:\n- End call if:\n  * You've confirmed the discount details\n  * You've received a clear \"no\"\n  * They're not interested\n  * After 2 unclear responses\n- Never ask additional questions about eligibility or availability\n- Keep all responses brief and professional\n- Never make up information"

/-- The assistant greeting pushed on the first interaction. -/
def FIRST_GREETING : String :=
  "Hi, I'm calling on behalf of Valor, a military discount directory. We're creating a list to help service members and their families find military discounts. Could I confirm some quick details about any discount your business might offer?"

/-- The message list `handleConversation` builds: the system prompt, the
greeting as an assistant turn on the first interaction, then the transcript
as the user turn. -/
def convMessages (transcript : String) (isFirstInteraction : Bool) : List ChatMessage :=
  [{ role := "system", content := SYSTEM_PROMPT }]
    ++ (if isFirstInteraction then [{ role := "assistant", content := FIRST_GREETING }] else [])
    ++ [{ role := "user", content := transcript }]

/-- The analysis record `handleConversation` returns: every field is the raw
parsed JSON value of that key, `none` when the key is absent. -/
structure ConvAnalysis where
  hasDiscount : Option Json
  discountAmount : Option Json
  discountDetails : Option Json
  availabilityInfo : Option Json
  eligibilityInfo : Option Json
  shouldEndCall : Option Json
  endReason : Option Json

structure ConvResult where
  response : Option Json
  analysis : ConvAnalysis

/-- `handleConversation` from src/openaiService.ts lines 29-143: call the
completion API, read `function_call!.arguments` (throws when absent), parse it
as JSON (throws on invalid JSON), and return the fields unchecked. -/
def handleConversation (env : ConvEnv) (transcript : String) (isFirstInteraction : Bool) :
    Except Unit ConvResult :=
  match env.complete (convMessages transcript isFirstInteraction) with
  | .error e => .error e
  | .ok completion =>
    match completion.functionCall with
    | none => .error ()
    | some fc =>
      match jsonParse fc.arguments with
      | none => .error ()
      | some result =>
        .ok { response := result.getField "nextResponse"
              analysis := {
                hasDiscount := result.getField "hasDiscount"
                discountAmount := result.getField "discountAmount"
                discountDetails := result.getField "discountDetails"
                availabilityInfo := result.getField "availabilityInfo"
                eligibilityInfo := result.getField "eligibilityInfo"
                shouldEndCall := result.getField "shouldEndCall"
                endReason := result.getField "endReason" } }

/-! ## TwiML documents and `handleCallResponse` (src/twilioService.ts lines 90-126)

The handlers build documents out of Say, Play, Hangup and
Gather-around-a-single-Play (the only gather shape any handler in the sources
produces), with the gather's `action` URL kept because the retry counter rides
it. -/

inductive Verb where
  | say : String → Verb
  | play : String → Verb
  | hangup : Verb
  /-- `<Gather action=...><Play>url</Play></Gather>` (input speech, timeout 5,
  speechTimeout auto, method POST in every source occurrence). -/
  | gatherPlay : String → String → Verb
deriving Repr, DecidableEq

abbrev TwiML := List Verb

/-- Whether a document ends the call. -/
def hangsUp (t : TwiML) : Bool := t.any (fun v => v == Verb.hangup)

/-- The webhook URL every gather posts back to. -/
def handlerActionUrl : String :=
  "https://dialerbackend-f07ad367d080.herokuapp.com/api/call-handler"

/-- The pre-generated recording both branches of `handleCallResponse` play
(the signed S3 query string of the constant is omitted: no code inspects it). -/
def closingAudioUrl : String :=
  "https://dialer0.s3.us-east-1.amazonaws.com/speech-1732250575331.mp3"

structure HCRResult where
  twiml : TwiML
  analysis : ConvAnalysis

/-- `handleCallResponse` from src/twilioService.ts lines 90-126: run the
classifier; on `shouldEndCall` play the recording and hang up, otherwise
gather around it; and return the analysis with `discountDetails` overwritten
by the raw transcript (the classifier's value is discarded). -/
def handleCallResponse (env : ConvEnv) (transcript : String) (isFirstInteraction : Bool) :
    Except Unit HCRResult :=
  match handleConversation env transcript isFirstInteraction with
  | .error e => .error e
  | .ok result =>
    .ok { twiml :=
            if truthyOpt result.analysis.shouldEndCall then
              [.play closingAudioUrl, .hangup]
            else
              [.gatherPlay handlerActionUrl closingAudioUrl]
          analysis := { result.analysis with discountDetails := some (.str transcript) } }

/-! ## The business record and the store's update semantics -/

/-- A `Business` row (prisma schema of the later migrations: discount fields,
availability/eligibility, lastCalled, callStatus).  The discount fields hold
`Json` values with `Json.null` for SQL NULL; `lastCalled` is a timestamp or
NULL; store-level type coercion is not modelled. -/
structure Business where
  id : String
  name : String
  phone : String
  hasDiscount : Json
  discountAmount : Json
  discountDetails : Json
  availabilityInfo : Json
  eligibilityInfo : Json
  lastCalled : Option Nat
  callStatus : String
deriving Repr

/-- Prisma `update` data semantics for one field: a JS `undefined` value
leaves the column untouched, any other value is written. -/
def prismaSet (old : Json) (new? : Option Json) : Json := new?.getD old

/-- The terminal-turn update of src/unnamed/part_000 lines 317-330: write the
analysis fields (each skipped when `undefined`), `lastCalled = now`,
`callStatus = "completed"`. -/
def completedUpdate (b : Business) (a : ConvAnalysis) (now : Nat) : Business :=
  { b with
    hasDiscount := prismaSet b.hasDiscount a.hasDiscount
    discountAmount := prismaSet b.discountAmount a.discountAmount
    discountDetails := prismaSet b.discountDetails a.discountDetails
    availabilityInfo := prismaSet b.availabilityInfo a.availabilityInfo
    eligibilityInfo := prismaSet b.eligibilityInfo a.eligibilityInfo
    lastCalled := some now
    callStatus := "completed" }

/-! ## Call-turn handler, src/unnamed/part_000 revision (lines 276-342)

Inputs each webhook: the transcript (`SpeechResult`; the empty string models
the absent field - the code only tests JS falsiness), the record the phone
lookup found (`none` models record-not-found; store failures beyond that are
not modelled), and the current time for `lastCalled`.  The handler returns the
TwiML response and the record as the turn leaves it. -/

def didntCatchMsg : String := "I'm sorry, I didn't catch that. Thank you for your time."
def goodbyeMsg : String := "Thank you for your time. Goodbye!"
def techDifficultyMsg : String :=
  "I apologize for the technical difficulty. Thank you for your time."

/-- The part_000 `/call-handler`.  `isFirstInteraction` is defined as
`!speechResult`, so the `!speechResult && !isFirstInteraction` branch guard is
written exactly as in the source; `handleCallResponse` receives
`speechResult || ""`, which is `speechResult` itself under the empty-string
model of absence. -/
def callHandlerV0 (env : ConvEnv) (speechResult : String) (record? : Option Business)
    (now : Nat) : TwiML × Option Business :=
  let isFirstInteraction := speechResult.isEmpty
  if speechResult.isEmpty && !isFirstInteraction then
    ([.say didntCatchMsg, .hangup], record?)
  else
    match record? with
    | none => ([.say goodbyeMsg, .hangup], none)
    | some business =>
      let business1 :=
        if isFirstInteraction then { business with callStatus := "in-progress" } else business
      match handleCallResponse env speechResult isFirstInteraction with
      | .error _ => ([.say techDifficultyMsg, .hangup], some business1)
      | .ok r =>
        if truthyOpt r.analysis.shouldEndCall then
          (r.twiml, some (completedUpdate business1 r.analysis now))
        else
          (r.twiml, some business1)

/-! ## Call-turn handler, src/csvUploader.ts revision (lines 259-334)

This revision regenerates audio through `generateAndStoreVoice` (TTS plus
object store, an awaited call that can reject), supplied as `tts` in the
environment.  It performs no record lookup or update. -/

structure HandlerEnv where
  conv : ConvEnv
  tts : String → Except Unit String

def apologyTroubleMsg : String :=
  "I apologize, but I'm having trouble understanding. Thank you for your time."
def repeatPromptMsg : String :=
  "I'm sorry, I didn't catch that. Could you please repeat your response?"

/-- `twiml.toString().match(/<Say>(.*?)<\/Say>/)?.[1]` over the documents the
handlers build: the text of the first Say verb (no gather in the sources nests
a Say, so document order is the list order). -/
def firstSayText : TwiML → Option String
  | [] => none
  | .say s :: _ => some s
  | _ :: rest => firstSayText rest

/-- The `!speechResult && !isFirstInteraction` branch of the csvUploader
handler: with the retry counter exhausted (`numAttempts >= 2`) generate and
play an apology and hang up; otherwise generate the repeat prompt and gather
with `numAttempts + 1` in the action URL.  Both paths await `tts` outside any
try/catch. -/
def emptyRetryBranch (env : HandlerEnv) (numAttempts : Nat) : Except Unit TwiML :=
  if numAttempts ≥ 2 then
    match env.tts apologyTroubleMsg with
    | .error e => .error e
    | .ok audioUrl => .ok [.play audioUrl, .hangup]
  else
    match env.tts repeatPromptMsg with
    | .error e => .error e
    | .ok retryAudioUrl =>
      .ok [.gatherPlay (handlerActionUrl ++ "?numAttempts=" ++ toString (numAttempts + 1))
             retryAudioUrl]

/-- The try block of the csvUploader handler: run `handleCallResponse`; when
its document contains a Say text, regenerate audio for it and rebuild the
document around the fresh URL according to `shouldEndCall`; otherwise send the
document as is. -/
def mainTry (env : HandlerEnv) (speechResult : String) (isFirstInteraction : Bool) :
    Except Unit TwiML :=
  match handleCallResponse env.conv speechResult isFirstInteraction with
  | .error e => .error e
  | .ok r =>
    match firstSayText r.twiml with
    | some responseText =>
      (match env.tts responseText with
       | .error e => .error e
       | .ok audioUrl =>
         if truthyOpt r.analysis.shouldEndCall then
           .ok [.play audioUrl, .hangup]
         else
           .ok [.gatherPlay handlerActionUrl audioUrl])
    | none => .ok r.twiml

/-- The try/catch of the csvUploader handler: on any exception from the try
block, the catch *awaits another* `tts` call for the apology; when that call
itself rejects, the rejection escapes the handler and no response is sent. -/
def tryCatchPart (env : HandlerEnv) (speechResult : String) : Except Unit TwiML :=
  match mainTry env speechResult speechResult.isEmpty with
  | .ok twiml => .ok twiml
  | .error _ =>
    match env.tts techDifficultyMsg with
    | .ok errorAudioUrl => .ok [.play errorAudioUrl, .hangup]
    | .error e => .error e

/-- The csvUploader `/call-handler`: `numAttempts` is the value
`parseInt(req.body.numAttempts || "0")` produced (0 when the parameter is
absent); `isFirstInteraction` is `!speechResult`, exactly as in the source. -/
def callHandler (env : HandlerEnv) (speechResult : String) (numAttempts : Nat) :
    Except Unit TwiML :=
  let isFirstInteraction := speechResult.isEmpty
  if speechResult.isEmpty && !isFirstInteraction then
    emptyRetryBranch env numAttempts
  else
    tryCatchPart env speechResult

/-! ## Bulk caller (`/call-all`, src/csvUploader.ts lines 216-257)

`placeCall` gives each placement's settled outcome (`true` for fulfilled):
`makeCall` is one independent provider request per business, awaited through
`Promise.allSettled`, so a batch outcome is exactly one Boolean per record. -/

structure CallAllReport where
  successful : Nat
  failed : Nat
  total : Nat
deriving Repr, DecidableEq

/-- The `/call-all` route: set every record's `callStatus` to `"calling"`,
then place one call per record and count the settled outcomes. -/
def callAll (placeCall : String → Bool) (businesses : List Business) :
    CallAllReport × List Business :=
  ({ successful := (businesses.map (fun b => placeCall b.phone)).count true
     failed := (businesses.map (fun b => placeCall b.phone)).count false
     total := businesses.length },
   businesses.map (fun b => { b with callStatus := "calling" }))

/-! ### Shared handler lemmas and concrete service behaviours -/

/-- Arguments of a terminal-turn classification (all required fields present,
`shouldEndCall` true). -/
def exArgsTerminal : String :=
  "\x7b\"hasDiscount\":true,\"discountAmount\":\"15%\",\"nextResponse\":\"Thanks\",\"shouldEndCall\":true,\"endReason\":\"got_complete_info\"\x7d"

/-- Arguments of a continue-turn classification (`shouldEndCall` false). -/
def exArgsContinue : String :=
  "\x7b\"hasDiscount\":false,\"nextResponse\":\"Could you repeat that?\",\"shouldEndCall\":false,\"endReason\":\"continue\"\x7d"

def envTerminal : ConvEnv :=
  { complete := fun _ => .ok { functionCall := some { arguments := exArgsTerminal } } }

def envContinue : HandlerEnv :=
  { conv := { complete := fun _ => .ok { functionCall := some { arguments := exArgsContinue } } }
    tts := fun _ => .ok "https://audio.example/ok.mp3" }

/-- The reasoning service returns a valid empty JSON object: every required
field is missing. -/
def envEmptyObj : ConvEnv :=
  { complete := fun _ => .ok { functionCall := some { arguments := "\x7b\x7d" } } }

/-- Both the classifier call and the TTS/object-store call reject. -/
def envBothFail : HandlerEnv :=
  { conv := { complete := fun _ => .error () }
    tts := fun _ => .error () }

/-- The classifier call rejects but audio generation works. -/
def envRecover : HandlerEnv :=
  { conv := { complete := fun _ => .error () }
    tts := fun _ => .ok "https://audio.example/apology.mp3" }

def exBusiness : Business :=
  { id := "b1", name := "Acme Diner", phone := "+15551234567",
    hasDiscount := .bool false, discountAmount := .null, discountDetails := .null,
    availabilityInfo := .null, eligibilityInfo := .null,
    lastCalled := none, callStatus := "pending" }

def exBusiness2 : Business :=
  { exBusiness with id := "b2", name := "Bravo Gym", phone := "+15559876543" }

/-- The guard `!speechResult && !isFirstInteraction` is `s.isEmpty && !s.isEmpty`,
which is false for every string, so every invocation takes the try/catch path. -/
theorem callHandler_eq_tryCatch (env : HandlerEnv) (s : String) (n : Nat) :
    callHandler env s n = tryCatchPart env s := by
  unfold callHandler
  dsimp only
  rw [Bool.and_not_self]
  rfl

/-- The part_000 handler on a found record, unfolded past its (always false)
empty-retry guard. -/
theorem callHandlerV0_state (env : ConvEnv) (s : String) (b : Business) (now : Nat) :
    callHandlerV0 env s (some b) now =
      (match handleCallResponse env s s.isEmpty with
       | Except.error _ =>
         ([Verb.say techDifficultyMsg, Verb.hangup],
          some (if s.isEmpty then { b with callStatus := "in-progress" } else b))
       | Except.ok r =>
         if truthyOpt r.analysis.shouldEndCall then
           (r.twiml, some (completedUpdate
             (if s.isEmpty then { b with callStatus := "in-progress" } else b) r.analysis now))
         else
           (r.twiml,
            some (if s.isEmpty then { b with callStatus := "in-progress" } else b))) := by
  unfold callHandlerV0
  dsimp only
  rw [Bool.and_not_self]
  rfl

/-- Whatever the classifier produced, `handleCallResponse` returns the raw
transcript as `discountDetails`. -/
theorem hcr_ok_discountDetails {env : ConvEnv} {t : String} {f : Bool} {r : HCRResult}
    (h : handleCallResponse env t f = Except.ok r) :
    r.analysis.discountDetails = some (Json.str t) := by
  unfold handleCallResponse at h
  cases hc : handleConversation env t f with
  | error e => rw [hc] at h; exact absurd h (by simp)
  | ok result =>
    rw [hc] at h
    injection h with h
    rw [← h]

/-- C1 (code bug): `isFirstInteraction` is defined as `!speechResult`, so the
guard `!speechResult && !isFirstInteraction` never holds: every invocation of
the csvUploader call-handler takes the try/catch path and the empty-transcript
retry/apology branch, `numAttempts` plumbing included, is unreachable.  At the
failing input - an empty transcript carried by a later turn with
`numAttempts = 2` - the handler emits the normal first-interaction listening
window with no hangup, not the apology termination the claim describes. -/
theorem callHandler_empty_retry_unreachable :
    (∀ (env : HandlerEnv) (s : String) (n : Nat), callHandler env s n = tryCatchPart env s) ∧
    callHandler envContinue "" 2 =
      Except.ok [Verb.gatherPlay handlerActionUrl closingAudioUrl] ∧
    hangsUp [Verb.gatherPlay handlerActionUrl closingAudioUrl] = false :=
  ⟨fun env s n => callHandler_eq_tryCatch env s n, rfl, rfl⟩

/-- C2, counterexample: an invocation where the classifier call rejects and
the catch block's own audio-generation call also rejects: the exception
escapes the handler and no provider instructions are sent, contradicting "the
handler never finishes a turn without returning provider instructions". -/
theorem callHandler_c2_counterexample :
    mainTry envBothFail "hello" ("hello" : String).isEmpty = Except.error () ∧
    callHandler envBothFail "hello" 0 = Except.error () :=
  ⟨rfl, rfl⟩

/-- C2, amended: an exception raised while computing the turn still yields the
spoken apology and hangup *provided the recovery path's own audio-generation
call succeeds* (in the csvUploader revision the catch block awaits
`generateAndStoreVoice` again; when that call also rejects, the handler sends
nothing).  In the earlier part_000 revision the catch block is synchronous, so
its apology-and-hangup response is unconditional. -/
theorem callHandler_exception_apology_amended :
    (∀ (env : HandlerEnv) (s : String) (n : Nat) (url : String) (e : Unit),
        env.tts techDifficultyMsg = Except.ok url →
        mainTry env s s.isEmpty = Except.error e →
        callHandler env s n = Except.ok [Verb.play url, Verb.hangup]) ∧
    (∀ (env : ConvEnv) (s : String) (b : Business) (now : Nat) (e : Unit),
        handleCallResponse env s s.isEmpty = Except.error e →
        (callHandlerV0 env s (some b) now).1 = [Verb.say techDifficultyMsg, Verb.hangup]) := by
  constructor
  · intro env s n url e hurl herr
    rw [callHandler_eq_tryCatch]
    unfold tryCatchPart
    rw [herr, hurl]
  · intro env s b now e herr
    rw [callHandlerV0_state, herr]

/-- Supporting instance: with the classifier down but audio generation up, the
csvUploader handler answers with the apology recording and a hangup. -/
theorem callHandler_recover_example :
    callHandler envRecover "hello" 0 =
      Except.ok [Verb.play "https://audio.example/apology.mp3", Verb.hangup] := rfl

/-- C3: frame property of the part_000 call-turn handler.  On a turn that is
not terminal - the classifier rejected, or returned `shouldEndCall` false -
the record keeps every discount field and `lastCalled` unchanged: the handler
leaves it exactly as it was, except that a first turn sets
`callStatus = "in-progress"`.  Only a terminal turn rewrites the record, and
then it is exactly `completedUpdate`: the analysis's discount fields plus
`lastCalled = now` and `callStatus = "completed"` (final conjunct). -/
theorem callHandlerV0_frame (env : ConvEnv) (s : String) (b : Business) (now : Nat) :
    (∀ e, handleCallResponse env s s.isEmpty = Except.error e →
        (callHandlerV0 env s (some b) now).2 =
          some (if s.isEmpty then { b with callStatus := "in-progress" } else b)) ∧
    (∀ r, handleCallResponse env s s.isEmpty = Except.ok r →
        truthyOpt r.analysis.shouldEndCall = false →
        (callHandlerV0 env s (some b) now).2 =
          some (if s.isEmpty then { b with callStatus := "in-progress" } else b)) ∧
    (∀ r, handleCallResponse env s s.isEmpty = Except.ok r →
        truthyOpt r.analysis.shouldEndCall = true →
        (callHandlerV0 env s (some b) now).2 =
          some (completedUpdate
            (if s.isEmpty then { b with callStatus := "in-progress" } else b) r.analysis now)) ∧
    (∀ (b' : Business) (a : ConvAnalysis),
        (completedUpdate b' a now).callStatus = "completed" ∧
        (completedUpdate b' a now).lastCalled = some now) := by
  refine ⟨?_, ?_, ?_, fun b' a => ⟨rfl, rfl⟩⟩
  · intro e he
    rw [callHandlerV0_state, he]
  · intro r hr ht
    rw [callHandlerV0_state, hr]
    dsimp only
    rw [ht]
    rfl
  · intro r hr ht
    rw [callHandlerV0_state, hr]
    dsimp only
    rw [ht]
    rfl

/-- Supporting instance: a concrete terminal turn writes exactly the analysis
fields, the timestamp and the completed status. -/
theorem callHandlerV0_terminal_example :
    (callHandlerV0 envTerminal "yes fifteen" (some exBusiness) 5).2 =
      some { exBusiness with
              hasDiscount := .bool true
              discountAmount := .str "15%"
              discountDetails := .str "yes fifteen"
              lastCalled := some 5
              callStatus := "completed" } := rfl

/-- C6, counterexample: `"{}"` is valid JSON with every required field of the
schema missing, yet `handleConversation` returns a result - with every
analysis field `undefined` - instead of raising a classification failure. -/
theorem handleConversation_c6_counterexample :
    jsonParse "\x7b\x7d" = some (Json.obj []) ∧
    (Json.obj []).getField "hasDiscount" = none ∧
    handleConversation envEmptyObj "hello" false =
      Except.ok { response := none
                  analysis := { hasDiscount := none, discountAmount := none,
                                discountDetails := none, availabilityInfo := none,
                                eligibilityInfo := none, shouldEndCall := none,
                                endReason := none } } :=
  ⟨rfl, rfl, rfl⟩

/-- C6, amended: a rejected completion call, an absent `function_call`, and
arguments that are not valid JSON all propagate as errors; but a *missing
required field* does not - whenever the arguments parse, the handler returns
the looked-up fields unchecked, `undefined` and all. -/
theorem handleConversation_failure_amended :
    (∀ (env : ConvEnv) (t : String) (f : Bool) (e : Unit),
        env.complete (convMessages t f) = Except.error e →
        handleConversation env t f = Except.error e) ∧
    (∀ (env : ConvEnv) (t : String) (f : Bool) (c : CompletionMsg),
        env.complete (convMessages t f) = Except.ok c → c.functionCall = none →
        handleConversation env t f = Except.error ()) ∧
    (∀ (env : ConvEnv) (t : String) (f : Bool) (c : CompletionMsg) (fc : FuncCall),
        env.complete (convMessages t f) = Except.ok c → c.functionCall = some fc →
        jsonParse fc.arguments = none →
        handleConversation env t f = Except.error ()) ∧
    (∀ (env : ConvEnv) (t : String) (f : Bool) (c : CompletionMsg) (fc : FuncCall) (j : Json),
        env.complete (convMessages t f) = Except.ok c → c.functionCall = some fc →
        jsonParse fc.arguments = some j →
        handleConversation env t f =
          Except.ok { response := j.getField "nextResponse"
                      analysis := { hasDiscount := j.getField "hasDiscount"
                                    discountAmount := j.getField "discountAmount"
                                    discountDetails := j.getField "discountDetails"
                                    availabilityInfo := j.getField "availabilityInfo"
                                    eligibilityInfo := j.getField "eligibilityInfo"
                                    shouldEndCall := j.getField "shouldEndCall"
                                    endReason := j.getField "endReason" } }) := by
  refine ⟨?_, ?_, ?_, ?_⟩
  · intro env t f e hc
    unfold handleConversation
    rw [hc]
  · intro env t f c hc hf
    unfold handleConversation
    rw [hc]
    dsimp only
    rw [hf]
  · intro env t f c fc hc hf hj
    unfold handleConversation
    rw [hc]
    dsimp only
    rw [hf]
    dsimp only
    rw [hj]
  · intro env t f c fc j hc hf hj
    unfold handleConversation
    rw [hc]
    dsimp only
    rw [hf]
    dsimp only
    rw [hj]

theorem bool_count (l : List Bool) : l.count true + l.count false = l.length := by
  induction l with
  | nil => rfl
  | cons b t ih => cases b <;> simp [List.count_cons] <;> omega

/-- C9: for a batch in which `M` placements reject, the bulk caller reports
`failed = M`, `successful = N - M` and `total = N`; and independently of any
placement outcome, every record in the batch keeps its `callStatus = "calling"`
update (placement failures roll nothing back and block no other record). -/
theorem callAll_counts (placeCall : String → Bool) (businesses : List Business) (M : Nat)
    (hM : (businesses.map (fun b => placeCall b.phone)).count false = M) :
    (callAll placeCall businesses).1.failed = M ∧
    (callAll placeCall businesses).1.successful = businesses.length - M ∧
    (callAll placeCall businesses).1.total = businesses.length ∧
    (callAll placeCall businesses).2 =
      businesses.map (fun b => { b with callStatus := "calling" }) := by
  refine ⟨hM, ?_, rfl, rfl⟩
  have hsum := bool_count (businesses.map fun b => placeCall b.phone)
  have hlen : (businesses.map fun b => placeCall b.phone).length = businesses.length :=
    List.length_map _ _
  show (businesses.map fun b => placeCall b.phone).count true = businesses.length - M
  omega

/-- The placement oracle of the witness batch: the call to `exBusiness2`'s
number rejects, the other fulfils. -/
def exPlace : String → Bool := fun p => p == "+15551234567"

theorem callAll_counts_witness :
    (callAll exPlace [exBusiness, exBusiness2]).1.failed = 1 ∧
    (callAll exPlace [exBusiness, exBusiness2]).1.successful = 2 - 1 ∧
    (callAll exPlace [exBusiness, exBusiness2]).1.total = 2 ∧
    (callAll exPlace [exBusiness, exBusiness2]).2 =
      [exBusiness, exBusiness2].map (fun b => { b with callStatus := "calling" }) :=
  callAll_counts exPlace [exBusiness, exBusiness2] 1 rfl

/-- C10: `handleCallResponse` always returns `discountDetails` equal to the
raw input transcript (the classifier's value is discarded); consequently a
terminal turn of the part_000 handler persists the caller's last utterance
verbatim as the record's `discountDetails` - the empty string when the call
ends on a turn with no transcript. -/
theorem handleCallResponse_transcript_details :
    (∀ (env : ConvEnv) (t : String) (f : Bool) (r : HCRResult),
        handleCallResponse env t f = Except.ok r →
        r.analysis.discountDetails = some (Json.str t)) ∧
    (∀ (env : ConvEnv) (s : String) (b : Business) (now : Nat) (r : HCRResult),
        handleCallResponse env s s.isEmpty = Except.ok r →
        truthyOpt r.analysis.shouldEndCall = true →
        ∃ rec, (callHandlerV0 env s (some b) now).2 = some rec ∧
          rec.discountDetails = Json.str s) := by
  constructor
  · intro env t f r h
    exact hcr_ok_discountDetails h
  · intro env s b now r h ht
    refine ⟨completedUpdate
      (if s.isEmpty then { b with callStatus := "in-progress" } else b) r.analysis now, ?_, ?_⟩
    · rw [callHandlerV0_state, h]
      dsimp only
      rw [ht]
      rfl
    · show prismaSet _ r.analysis.discountDetails = Json.str s
      rw [hcr_ok_discountDetails h]
      rfl

set_option maxRecDepth 4000 in
/-- Supporting instance: a call that ends on a turn with no transcript
persists the empty string as the details. -/
theorem callHandlerV0_empty_terminal_example :
    (callHandlerV0 envTerminal "" (some exBusiness) 9).2 =
      some { exBusiness with
              hasDiscount := .bool true
              discountAmount := .str "15%"
              discountDetails := .str ""
              lastCalled := some 9
              callStatus := "completed" } := rfl

end DialerBE
